import Mathlib

/-!
Shallow embedding of the algorithmic core of the `snappy` repository
(`src/snapp.py`, together with the older pagination variant kept in
`src/snap.py`), restricted to the ASCII fragment of Python string semantics
that the program manipulates.  Pure text functions are translated as Lean
functions on `String`/`List Char`; the fatal `exit(1)` path of the author
comparison is an `Except Unit` error; the pagination controller is a function
from the sequence of fetch results the network would return to the trace of
requests, backoff durations and yielded page bodies.
-/

/-- Whitespace as Python's `str.strip` / the regex class `\s` see it on the
ASCII fragment: TAB..CR (9-13), the separator controls (28-31) and space. -/
def pyIsSpace (c : Char) : Bool :=
  (9 ≤ c.toNat && c.toNat ≤ 13) || (28 ≤ c.toNat && c.toNat ≤ 31) || c.toNat = 32

/-- Python `str.lower()` on the ASCII fragment (`Char.toLower` is exactly the
`A`-`Z` shift Python performs on ASCII letters). -/
def pyLower (s : String) : String :=
  ⟨s.data.map Char.toLower⟩

/-- Python `str.strip()` on a character list: drop whitespace at both ends. -/
def pyStripList (cs : List Char) : List Char :=
  ((cs.dropWhile pyIsSpace).reverse.dropWhile pyIsSpace).reverse

/-- Python `str.strip()`. -/
def pyStrip (s : String) : String :=
  ⟨pyStripList s.data⟩

/-- The characters of Python's `string.punctuation`: ASCII codes 33-47,
58-64, 91-96 and 123-126 (every printable ASCII character that is neither
alphanumeric nor the space). -/
def pyIsPunct (c : Char) : Bool :=
  (33 ≤ c.toNat && c.toNat ≤ 47) || (58 ≤ c.toNat && c.toNat ≤ 64) ||
    (91 ≤ c.toNat && c.toNat ≤ 96) || (123 ≤ c.toNat && c.toNat ≤ 126)

/-- Worker for `collapseWS`: the flag records whether the previous character
belonged to a whitespace run that has already emitted its single space. -/
def collapseWSAux : Bool → List Char → List Char
  | _, [] => []
  | inRun, c :: cs =>
    if pyIsSpace c then
      if inRun then collapseWSAux true cs
      else ' ' :: collapseWSAux true cs
    else c :: collapseWSAux false cs

/-- One pass of `re.sub(r"\s+", " ", ...)`: every maximal whitespace run
becomes a single space. -/
def collapseWS (cs : List Char) : List Char :=
  collapseWSAux false cs

/-- `normalise_journal_name` from src/snapp.py: lowercase, trim, delete the
characters of `string.punctuation`, then collapse each whitespace run to one
space.  (Note the trim happens before the punctuation removal.) -/
def normalise_journal_name (name : String) : String :=
  ⟨collapseWS ((pyStripList (name.data.map Char.toLower)).filter
      (fun c => !pyIsPunct c))⟩

/-- Does one of the lookahead alternatives of the venue-boundary regex
`\s\d|\s\(\d|,\s*\d{1,4}` match at the head of `cs`?  (Inside a lookahead,
`\d{1,4}` succeeds exactly when at least one digit follows.) -/
def boundaryAt (cs : List Char) : Bool :=
  (match cs with
    | a :: b :: _ => pyIsSpace a && b.isDigit
    | _ => false) ||
  (match cs with
    | a :: b :: c :: _ => pyIsSpace a && b = '(' && c.isDigit
    | _ => false) ||
  (match cs with
    | a :: rest =>
      a = ',' &&
        (match rest.dropWhile pyIsSpace with
          | d :: _ => d.isDigit
          | [] => false)
    | [] => false)

/-- The scan performed by `re.match(r"^(.*?)(?=\s\d|\s\(\d|,\s*\d{1,4})", s)`:
the lazy `.*?` tries ever longer prefixes, none of which may contain a
newline (`.` does not match `\n`), until the lookahead fires; the matched
prefix is returned, `none` when the regex fails. -/
def findVenueCut : List Char → Option (List Char)
  | [] => none
  | c :: rest =>
    if boundaryAt (c :: rest) then some []
    else if c = '\n' then none
    else (findVenueCut rest).map (fun pre => c :: pre)

/-- `extract_journal_name` from src/snapp.py: strip the raw info string, cut
it at the first volume/pages/year boundary the regex finds (stripping the
kept prefix), and fall back to the whole stripped string. -/
def extract_journal_name (raw_info : String) : String :=
  let s := pyStripList raw_info.data
  match findVenueCut s with
  | some pre => ⟨pyStripList pre⟩
  | none => ⟨s⟩

/-- Modelled from the words of claim C8 (not from the source): return the
prefix of the input that precedes the first position where a boundary of
shape space+digit, space+`(`+digit, or comma+optional-whitespace+digits
occurs, and the whole string when no such position exists. -/
def extractVenueClaimed (raw : String) : String :=
  match (List.range (raw.data.length + 1)).find?
      (fun i => boundaryAt (raw.data.drop i)) with
  | some i => ⟨raw.data.take i⟩
  | none => raw

deriving instance DecidableEq for Except

/-- Number of hyphens in a string (`name.count("-")` in the source). -/
def hyphenCount (s : String) : Nat :=
  s.data.count '-'

/-- Python `str.split(sep)` for a one-character separator: consecutive
separators produce empty fields, and the result is never empty. -/
def splitChar (sep : Char) : List Char → List (List Char)
  | [] => [[]]
  | c :: cs =>
    match splitChar sep cs with
    | [] => [[]]
    | g :: gs => if c = sep then [] :: g :: gs else (c :: g) :: gs

/-- Python `s.split(sep)` on strings. -/
def pySplit (sep : Char) (s : String) : List String :=
  (splitChar sep s.data).map (fun g => (⟨g⟩ : String))

/-- Python `str.isalpha()` on the ASCII fragment: nonempty and every
character alphabetic. -/
def pyIsAlphaStr (p : String) : Bool :=
  !p.data.isEmpty && p.data.all Char.isAlpha

/-- `part[0] != part[0].upper()` from the source: the token starts with a
character that is not its own uppercase form (for alphabetic tokens, a
lowercase letter). -/
def startsLower (p : String) : Bool :=
  match p.data with
  | c :: _ => c.toUpper ≠ c
  | [] => false

/-- The token's first character as a one-character string. -/
def headLetter (p : String) : String :=
  match p.data with
  | c :: _ => String.singleton c
  | [] => ""

/-- The reverse walk over `full_name_parts[:-1]` of
`compare_initialled_name_with_full_name`: tokens that are not purely
alphabetic are skipped, tokens starting lowercase are prepended to the
surname, tokens starting uppercase prepend their first letter to the
initials.  The input list is already reversed, as in the source's
`reversed(full_name_parts[:-1])`. -/
def walkRev (initials surname : String) : List String → String × String
  | [] => (initials, surname)
  | p :: rest =>
    if !pyIsAlphaStr p then walkRev initials surname rest
    else if startsLower p then walkRev initials (p ++ " " ++ surname) rest
    else walkRev (headLetter p ++ initials) surname rest

/-- Reconstruction of an initialled form from `full_name`: split on single
spaces, seed the surname with the last token, walk the remaining tokens in
reverse, and join as `" ".join([initials, surname])`. -/
def rebuildInitialled (full_name : String) : String :=
  let parts := pySplit ' ' (pyStrip full_name)
  if 2 ≤ parts.length then
    let pr := walkRev "" (parts.getLastD "") parts.dropLast.reverse
    pr.1 ++ " " ++ pr.2
  else
    "" ++ " " ++ parts.headD ""

/-- `str.replace("-", " ")`. -/
def replaceHyphens (s : String) : String :=
  ⟨s.data.map (fun c => if c = '-' then ' ' else c)⟩

/-- The comparison performed by `compare_initialled_name_with_full_name`
once the multi-hyphen checks have passed: rebuild the initialled form of
`full_name`, de-hyphenate both sides when either original name contained a
hyphen, and compare case-insensitively. -/
def compareCore (initialled_name full_name : String) : Bool :=
  let foundHyphen := 1 ≤ hyphenCount initialled_name || 1 ≤ hyphenCount full_name
  let rebuilt := rebuildInitialled full_name
  if foundHyphen then
    pyLower (replaceHyphens initialled_name) == pyLower (replaceHyphens rebuilt)
  else
    pyLower initialled_name == pyLower rebuilt

/-- `compare_initialled_name_with_full_name` from src/snapp.py.  The
`Except.error` value models the `exit(1)` taken when either name contains
more than one hyphen; that `SystemExit` is caught nowhere in the program, so
it aborts the entire run. -/
def compare_initialled_name_with_full_name (initialled_name full_name : String) :
    Except Unit Bool :=
  if 2 ≤ hyphenCount initialled_name then .error ()
  else if 2 ≤ hyphenCount full_name then .error ()
  else .ok (compareCore initialled_name full_name)

/-- `[a.strip() for a in authors.split(",") if a.strip()]` from src/snapp.py:
the entry's author tokens, in list order. -/
def authorTokens (authors : String) : List String :=
  ((pySplit ',' authors).map pyStrip).filter (fun a => a ≠ "")

/-- The author classification loop of `scrape_it`: walk the author tokens in
list order with a 1-based counter; a compare match increments the
first-author counter at counter 1, `elif` the second-author counter at
counter 2, `elif` the last-author counter at the final counter.  `n` is the
total number of author tokens. -/
def authorLoop (cand : String) (n : Nat) :
    List String → Nat → Nat × Nat × Nat → Except Unit (Nat × Nat × Nat)
  | [], _, acc => .ok acc
  | a :: rest, counter, acc => do
    let c := counter + 1
    let b ← compare_initialled_name_with_full_name a cand
    let acc' :=
      if b then
        if c = 1 then (acc.1 + 1, acc.2.1, acc.2.2)
        else if c = 2 then (acc.1, acc.2.1 + 1, acc.2.2)
        else if c = n then (acc.1, acc.2.1, acc.2.2 + 1)
        else acc
      else acc
    authorLoop cand n rest c acc'

/-- Position counters (first, second, last) produced for one venue-matched
entry whose author cell is `authorsText`, for the candidate name `cand`. -/
def entryPositionCounts (cand authorsText : String) : Except Unit (Nat × Nat × Nat) :=
  let l := authorTokens authorsText
  authorLoop cand l.length l 0 (0, 0, 0)

/-- The `normalised_journal_titles` dictionary built in `main`:
`{normalise_journal_name(j): j for j in journal_list}`.  Kept as the
association list in insertion order; lookups honour Python's
later-entry-wins overwrite semantics. -/
def normalisedTitlesMap (journal_list : List String) : List (String × String) :=
  journal_list.map (fun j => (normalise_journal_name j, j))

/-- Python `dict.get` over the insertion-ordered association list: the value
of the last binding whose key equals `k`, since later comprehension entries
overwrite earlier ones. -/
def dictGet (m : List (String × String)) (k : String) : Option String :=
  (m.reverse.find? (fun kv => kv.1 == k)).map (fun kv => kv.2)

/-- The venue matching done per publication row in `scrape_it`:
`normalised_journal_titles.get(normalise_journal_name(extract_journal_name(raw_info)))`. -/
def matchedJournalFor (titles : List (String × String)) (raw_info : String) : Option String :=
  dictGet titles (normalise_journal_name (extract_journal_name raw_info))

/-- A publication row of the results table that has both an authors cell and
a journal-info cell (rows with fewer `gs_gray` divs are skipped before the
counts are touched). -/
structure Entry where
  authorsText : String
  rawInfo : String
deriving DecidableEq, Repr

/-- The data the external HTML extraction layer exposes to `scrape_it` for
one fetched page: the profile name div, the first affiliation div, the
interest links, the citation/h-index table cells, and the publication rows. -/
structure PageData where
  name : Option String
  institution : Option String
  interests : List String
  hAll : Option Int
  hFiveY : Option Int
  citAll : Option Int
  citFiveY : Option Int
  entries : List Entry
deriving Repr

/-- The per-venue counters of `scrape_it`, as total functions from venue
name to count, plus the page's article count. -/
structure PubTotals where
  cnt : String → Nat
  fa : String → Nat
  sa : String → Nat
  la : String → Nat
  numAuthors : String → Nat
  articles : Nat

/-- All-zero counters. -/
def zeroTotals : PubTotals :=
  ⟨fun _ => 0, fun _ => 0, fun _ => 0, fun _ => 0, fun _ => 0, 0⟩

/-- `f` with the count at key `j` increased by `k`. -/
def bumpAt (f : String → Nat) (j : String) (k : Nat) : String → Nat :=
  fun x => if x = j then f x + k else f x

/-- The publication-row loop of `scrape_it`: every row with both cells
increments the article count; a venue-matched row additionally increments
the per-venue counters, running the author classification loop (whose fatal
multi-hyphen error propagates). -/
def processEntries (cand : String) (titles : List (String × String)) :
    List Entry → PubTotals → Except Unit PubTotals
  | [], acc => .ok acc
  | e :: rest, acc =>
    let acc1 : PubTotals :=
      { acc with articles := acc.articles + 1 }
    match matchedJournalFor titles e.rawInfo with
    | none => processEntries cand titles rest acc1
    | some j => do
      let pos ← entryPositionCounts cand e.authorsText
      processEntries cand titles rest
        { cnt := bumpAt acc1.cnt j 1
          fa := bumpAt acc1.fa j pos.1
          sa := bumpAt acc1.sa j pos.2.1
          la := bumpAt acc1.la j pos.2.2
          numAuthors := bumpAt acc1.numAuthors j (authorTokens e.authorsText).length
          articles := acc1.articles }

/-- What `scrape_it` returns for one page. -/
structure ScrapeOut where
  name : Option String
  institution : Option String
  researchAreas : Option (List String)
  hAll : Option Int
  hFiveY : Option Int
  citAll : Option Int
  citFiveY : Option Int
  totals : PubTotals

/-- `scrape_it` from src/snapp.py: the profile name is read on every page;
institution, research areas and the citation/h-index values are read only
when `page_idx == 0` and stay `None` otherwise; the publication table is
processed on every page (skipped entirely when the journal list is empty,
in which case even the article count stays 0). -/
def scrape_it (p : PageData) (journal_list : List String)
    (titles : List (String × String)) (page_idx : Nat) : Except Unit ScrapeOut := do
  let totals ←
    if journal_list.isEmpty then .ok zeroTotals
    else processEntries (p.name.getD "") titles p.entries zeroTotals
  .ok
    { name := p.name
      institution := if page_idx = 0 then p.institution else none
      researchAreas := if page_idx = 0 then some p.interests else none
      hAll := if page_idx = 0 then p.hAll else none
      hFiveY := if page_idx = 0 then p.hFiveY else none
      citAll := if page_idx = 0 then p.citAll else none
      citFiveY := if page_idx = 0 then p.citFiveY else none
      totals := totals }

/-- The profile-level aggregate built by `scrape_profile_all_publications`. -/
structure AggOut where
  name : Option String
  institution : Option String
  researchAreas : Option (List String)
  hAll : Option Int
  hFiveY : Option Int
  citAll : Option Int
  citFiveY : Option Int
  totals : PubTotals
  anyPage : Bool

/-- `for j in journal_list: total[j] += page.get(j, 0)` — only the keys of
the journal list are accumulated. -/
def addCounts (journal_list : List String) (f g : String → Nat) : String → Nat :=
  fun x => if journal_list.contains x then f x + g x else f x

/-- The per-page body of the aggregation loop: the tuple assignment in the
source rebinds name, institution, research areas and the citation/h-index
values to THIS page's `scrape_it` result (overwriting the page-0 values),
and adds the per-venue counters into the running totals. -/
def aggLoop (journal_list : List String) (titles : List (String × String)) :
    List PageData → Nat → AggOut → Except Unit AggOut
  | [], _, acc => .ok acc
  | p :: rest, page_idx, acc => do
    let r ← scrape_it p journal_list titles page_idx
    aggLoop journal_list titles rest (page_idx + 1)
      { name := r.name
        institution := r.institution
        researchAreas := r.researchAreas
        hAll := r.hAll
        hFiveY := r.hFiveY
        citAll := r.citAll
        citFiveY := r.citFiveY
        totals :=
          { cnt := addCounts journal_list acc.totals.cnt r.totals.cnt
            fa := addCounts journal_list acc.totals.fa r.totals.fa
            sa := addCounts journal_list acc.totals.sa r.totals.sa
            la := addCounts journal_list acc.totals.la r.totals.la
            numAuthors := addCounts journal_list acc.totals.numAuthors r.totals.numAuthors
            articles := acc.totals.articles + r.totals.articles }
        anyPage := true }

/-- `scrape_profile_all_publications` from src/snapp.py, over the sequence
of cached pages that exist: fold `scrape_it` over the pages with a running
page index starting at 0. -/
def scrape_profile_all_publications (pages : List PageData)
    (journal_list : List String) (titles : List (String × String)) :
    Except Unit AggOut :=
  aggLoop journal_list titles pages 0
    { name := none, institution := none, researchAreas := some [], hAll := none,
      hFiveY := none, citAll := none, citFiveY := none, totals := zeroTotals,
      anyPage := false }

/-- Is `needle` a leading segment of `hay`? -/
def startsWithList : List Char → List Char → Bool
  | [], _ => true
  | _ :: _, [] => false
  | a :: as, b :: bs => a = b && startsWithList as bs

/-- Python's `needle in hay` substring test. -/
def hasSubList (needle : List Char) : List Char → Bool
  | [] => startsWithList needle []
  | c :: rest => startsWithList needle (c :: rest) || hasSubList needle rest

/-- `needle in hay` on strings. -/
def strContains (hay needle : String) : Bool :=
  hasSubList needle.data hay.data

/-- The fixed marker phrases of `looks_like_block_page`. -/
def blockMarkers : List String :=
  ["unusual traffic", "/sorry/", "not a robot", "solve the captcha",
   "submit a verification", "our systems have detected", "scholar help"]

/-- `looks_like_block_page` from src/snapp.py: lowercase the body and test
for "captcha" or any of the marker phrases. -/
def looks_like_block_page (html : String) : Bool :=
  let text := pyLower html
  strContains text "captcha" || blockMarkers.any (fun m => strContains text m)

/-- One result of `session.get` for a page URL, as the controller observes
it: a transport-level exception, or a response with its status code, body
text, and what the external table extraction finds in the body (`none` = no
`gsc_a_t` table, `some n` = a table with `n` publication rows). -/
inductive Resp where
  | tErr : Resp
  | http : Nat → String → Option Nat → Resp
deriving DecidableEq, Repr

/-- Observable behaviour of one controller run: how many `session.get`
requests it made, the backoff durations (in seconds) it slept in order, and
the page bodies it yielded. -/
structure Trace where
  reqs : Nat
  backoffs : List Nat
  pages : List String
deriving DecidableEq, Repr

/-- The page/retry loop of `iter_scholar_pages_requests` in src/snapp.py,
consuming the pending fetch results one per request.  A transport error
increments the block-attempt counter and, while the counter has not passed
`max_block_retries`, sleeps `block_backoff_base * 2^(attempts-1)` seconds
and retries the same page; HTTP 429/503, any other non-200 status, a 200
body that looks like a block page, a missing results table and an empty
results table all end pagination at once; a non-empty page is yielded, and
pagination continues to the next page only when the row count reached
`pagesize`. -/
def snappGo (pagesize max_block_retries : Nat) (block_backoff_base : Nat) :
    List Resp → Nat → Nat → Trace
  | _, 0, _ => ⟨0, [], []⟩
  | [], _ + 1, _ => ⟨0, [], []⟩
  | .tErr :: rest, pl + 1, attempts =>
    let a := attempts + 1
    if max_block_retries < a then ⟨1, [], []⟩
    else
      let t := snappGo pagesize max_block_retries block_backoff_base rest (pl + 1) a
      ⟨t.reqs + 1, block_backoff_base * 2 ^ (a - 1) :: t.backoffs, t.pages⟩
  | .http status body rows :: rest, pl + 1, _ =>
    if status = 429 || status = 503 then ⟨1, [], []⟩
    else if status ≠ 200 then ⟨1, [], []⟩
    else if looks_like_block_page body then ⟨1, [], []⟩
    else
      match rows with
      | none => ⟨1, [], []⟩
      | some 0 => ⟨1, [], []⟩
      | some (n + 1) =>
        if n + 1 < pagesize then ⟨1, [], [body]⟩
        else
          let t := snappGo pagesize max_block_retries block_backoff_base rest pl 0
          ⟨t.reqs + 1, t.backoffs, body :: t.pages⟩

/-- `iter_scholar_pages_requests` from src/snapp.py: run the loop from page
index 0 with a fresh block-attempt counter, bounded by `max_pages`. -/
def iter_scholar_pages_requests (resps : List Resp)
    (pagesize max_pages max_block_retries : Nat) (block_backoff_base : Nat) : Trace :=
  snappGo pagesize max_block_retries block_backoff_base resps max_pages 0

/-- The page/retry loop of the older `iter_scholar_pages_requests` in
src/snap.py: identical except that HTTP 429/503 and a 200 block-marker body
take the same increment/backoff/retry path as a transport error. -/
def snapGo (pagesize max_block_retries : Nat) (block_backoff_base : Nat) :
    List Resp → Nat → Nat → Trace
  | _, 0, _ => ⟨0, [], []⟩
  | [], _ + 1, _ => ⟨0, [], []⟩
  | .tErr :: rest, pl + 1, attempts =>
    let a := attempts + 1
    if max_block_retries < a then ⟨1, [], []⟩
    else
      let t := snapGo pagesize max_block_retries block_backoff_base rest (pl + 1) a
      ⟨t.reqs + 1, block_backoff_base * 2 ^ (a - 1) :: t.backoffs, t.pages⟩
  | .http status body rows :: rest, pl + 1, attempts =>
    if status = 429 || status = 503 then
      let a := attempts + 1
      if max_block_retries < a then ⟨1, [], []⟩
      else
        let t := snapGo pagesize max_block_retries block_backoff_base rest (pl + 1) a
        ⟨t.reqs + 1, block_backoff_base * 2 ^ (a - 1) :: t.backoffs, t.pages⟩
    else if status ≠ 200 then ⟨1, [], []⟩
    else if looks_like_block_page body then
      let a := attempts + 1
      if max_block_retries < a then ⟨1, [], []⟩
      else
        let t := snapGo pagesize max_block_retries block_backoff_base rest (pl + 1) a
        ⟨t.reqs + 1, block_backoff_base * 2 ^ (a - 1) :: t.backoffs, t.pages⟩
    else
      match rows with
      | none => ⟨1, [], []⟩
      | some 0 => ⟨1, [], []⟩
      | some (n + 1) =>
        if n + 1 < pagesize then ⟨1, [], [body]⟩
        else
          let t := snapGo pagesize max_block_retries block_backoff_base rest pl 0
          ⟨t.reqs + 1, t.backoffs, body :: t.pages⟩

/-- `iter_scholar_pages_requests` from src/snap.py. -/
def iter_scholar_pages_requests_snap (resps : List Resp)
    (pagesize max_pages max_block_retries : Nat) (block_backoff_base : Nat) : Trace :=
  snapGo pagesize max_block_retries block_backoff_base resps max_pages 0

/-- `MAX_BLOCK_RETRIES_DEFAULT` from src/snapp.py. -/
def MAX_BLOCK_RETRIES_DEFAULT : Nat := 0

theorem charOfNat_toNat_le (n : Nat) (h2 : n ≤ 122) : (Char.ofNat n).toNat = n := by
  have hv : n.isValidChar := Or.inl (by omega)
  simp [Char.ofNat, hv, Char.ofNatAux, Char.toNat, UInt32.toNat]

theorem toLower_not_upper (d : Char) :
    ¬(65 ≤ (Char.toLower d).toNat ∧ (Char.toLower d).toNat ≤ 90) := by
  by_cases h : d.toNat ≥ 65 ∧ d.toNat ≤ 90
  · have he : Char.toLower d = Char.ofNat (d.toNat + 32) := by
      unfold Char.toLower; exact if_pos h
    rw [he, charOfNat_toNat_le _ (by omega)]
    omega
  · have he : Char.toLower d = d := by
      unfold Char.toLower; exact if_neg h
    rw [he]; omega

theorem mem_collapseWSAux {c : Char} :
    ∀ (b : Bool) (cs : List Char), c ∈ collapseWSAux b cs → c = ' ' ∨ c ∈ cs := by
  intro b cs
  induction cs generalizing b with
  | nil => intro h; simp [collapseWSAux] at h
  | cons d cs ih =>
    intro h
    by_cases hd : pyIsSpace d
    · cases b with
      | true =>
        simp only [collapseWSAux, hd, if_true] at h
        rcases ih true h with h' | h'
        · exact Or.inl h'
        · exact Or.inr (List.mem_cons_of_mem _ h')
      | false =>
        simp only [collapseWSAux, hd, if_true] at h
        rcases List.mem_cons.mp h with h' | h'
        · exact Or.inl h'
        · rcases ih true h' with h'' | h''
          · exact Or.inl h''
          · exact Or.inr (List.mem_cons_of_mem _ h'')
    · simp only [collapseWSAux, hd, if_false] at h
      rcases List.mem_cons.mp h with h' | h'
      · exact Or.inr (h' ▸ List.mem_cons_self _ _)
      · rcases ih false h' with h'' | h''
        · exact Or.inl h''
        · exact Or.inr (List.mem_cons_of_mem _ h'')

theorem ws_mem_collapseWSAux {c : Char} :
    ∀ (b : Bool) (cs : List Char), c ∈ collapseWSAux b cs → pyIsSpace c = true → c = ' ' := by
  intro b cs
  induction cs generalizing b with
  | nil => intro h _; simp [collapseWSAux] at h
  | cons d cs ih =>
    intro h hws
    by_cases hd : pyIsSpace d
    · cases b with
      | true =>
        simp only [collapseWSAux, hd, if_true] at h
        exact ih true h hws
      | false =>
        simp only [collapseWSAux, hd, if_true] at h
        rcases List.mem_cons.mp h with h' | h'
        · exact h'
        · exact ih true h' hws
    · simp only [collapseWSAux, hd, if_false] at h
      rcases List.mem_cons.mp h with h' | h'
      · subst h'; rw [hws] at hd; exact absurd rfl hd
      · exact ih false h' hws

theorem head_collapseWSAux_true :
    ∀ (cs : List Char) (h : Char), (collapseWSAux true cs).head? = some h →
      pyIsSpace h = false := by
  intro cs
  induction cs with
  | nil => intro h hh; simp [collapseWSAux] at hh
  | cons d cs ih =>
    intro h hh
    by_cases hd : pyIsSpace d
    · simp only [collapseWSAux, hd, if_true] at hh
      exact ih h hh
    · simp only [collapseWSAux, hd] at hh
      simp only [Bool.false_eq_true, if_false, List.head?_cons, Option.some_inj] at hh
      subst hh
      simpa using hd

theorem chain_collapseWSAux :
    ∀ (b : Bool) (cs : List Char),
      (collapseWSAux b cs).Chain' (fun a b => ¬(pyIsSpace a = true ∧ pyIsSpace b = true)) := by
  intro b cs
  induction cs generalizing b with
  | nil => cases b <;> simp [collapseWSAux]
  | cons d cs ih =>
    by_cases hd : pyIsSpace d
    · cases b with
      | true =>
        simpa only [collapseWSAux, hd, if_true] using ih true
      | false =>
        simp only [collapseWSAux, hd, if_true, Bool.false_eq_true, if_false]
        rw [List.chain'_cons']
        refine ⟨?_, ih true⟩
        intro h hh hcontra
        have hns := head_collapseWSAux_true cs h hh
        rw [hcontra.2] at hns
        exact absurd hns (by decide)
    · simp only [collapseWSAux, hd]
      simp only [Bool.false_eq_true, if_false]
      rw [List.chain'_cons']
      refine ⟨?_, ih false⟩
      intro h _ hcontra
      rw [hcontra.1] at hd
      exact hd rfl

theorem mem_dropWhileList {α : Type} {p : α → Bool} {c : α} :
    ∀ l : List α, c ∈ l.dropWhile p → c ∈ l := by
  intro l
  induction l with
  | nil => intro h; simp [List.dropWhile] at h
  | cons a l ih =>
    intro h
    by_cases ha : p a
    · rw [List.dropWhile_cons_of_pos ha] at h
      exact List.mem_cons_of_mem _ (ih h)
    · rw [List.dropWhile_cons_of_neg (by simpa using ha)] at h
      exact h

theorem mem_pyStripList {c : Char} (l : List Char) : c ∈ pyStripList l → c ∈ l := by
  intro h
  unfold pyStripList at h
  rw [List.mem_reverse] at h
  have h2 := mem_dropWhileList _ h
  rw [List.mem_reverse] at h2
  exact mem_dropWhileList _ h2

/-- Claim C5, amended.  The venue-name normalizer is total and pure, its
output is lowercased (no ASCII uppercase letter survives), contains no
ASCII-punctuation character, and has every whitespace run collapsed to a
single space (every whitespace character of the output is the space
character and no two adjacent output characters are both whitespace); and
`normalise_journal_name "IEEE Trans. Robotics!!" = "ieee trans robotics"`.
The claim's further assertions — that the output is trimmed and that the
function is idempotent — are false, because the trim happens before the
punctuation removal (see the counterexample). -/
theorem C5_normalise_amended :
    (∀ s : String, ∀ c ∈ (normalise_journal_name s).data, pyIsPunct c = false) ∧
    (∀ s : String, ∀ c ∈ (normalise_journal_name s).data,
        ¬(65 ≤ c.toNat ∧ c.toNat ≤ 90)) ∧
    (∀ s : String, ∀ c ∈ (normalise_journal_name s).data, pyIsSpace c = true → c = ' ') ∧
    (∀ s : String, (normalise_journal_name s).data.Chain'
        (fun a b => ¬(pyIsSpace a = true ∧ pyIsSpace b = true))) ∧
    normalise_journal_name "IEEE Trans. Robotics!!" = "ieee trans robotics" := by
  refine ⟨?_, ?_, ?_, ?_, by decide⟩
  · intro s c hc
    rcases mem_collapseWSAux _ _ hc with rfl | hmem
    · decide
    · have := (List.mem_filter.mp hmem).2
      simpa using this
  · intro s c hc
    rcases mem_collapseWSAux _ _ hc with rfl | hmem
    · decide
    · have h1 := (List.mem_filter.mp hmem).1
      have h2 := mem_pyStripList _ h1
      rcases List.mem_map.mp h2 with ⟨d, _, rfl⟩
      exact toLower_not_upper d
  · intro s c hc hws
    exact ws_mem_collapseWSAux _ _ hc hws
  · intro s
    exact chain_collapseWSAux _ _

/-- Counterexample to claim C5 as stated: `normalise_journal_name` is not
idempotent and its output is not always trimmed.  On `"! a"` the trim runs
before the punctuation removal, so the result is `" a"`, which carries a
leading space and normalises further to `"a"`. -/
theorem C5_normalise_counterexample :
    normalise_journal_name "! a" = " a" ∧
    normalise_journal_name (normalise_journal_name "! a") ≠ normalise_journal_name "! a" := by
  decide

/-- Witness for `C5_normalise_amended` at a concrete input: the character
`t` of the normalised example string is not punctuation. -/
theorem C5_normalise_amended_witness : pyIsPunct 't' = false :=
  C5_normalise_amended.1 "IEEE Trans. Robotics!!" 't' (by decide)

/-- The boundary scan of the venue regex, characterised: it stops at the
smallest position that both precedes any newline and carries a boundary,
and fails exactly when no such position exists. -/
theorem findVenueCut_spec (cs : List Char) :
    (∃ i, findVenueCut cs = some (cs.take i) ∧
        i ≤ cs.findIdx (fun c => c = '\n') ∧
        boundaryAt (cs.drop i) = true ∧
        ∀ j < i, boundaryAt (cs.drop j) = false) ∨
      (findVenueCut cs = none ∧
        ∀ i ≤ cs.findIdx (fun c => c = '\n'), boundaryAt (cs.drop i) = false) := by
  induction cs with
  | nil =>
    right
    refine ⟨rfl, ?_⟩
    intro i hi
    have hz : i = 0 := Nat.le_zero.mp (by simpa [List.findIdx_nil] using hi)
    subst hz
    rfl
  | cons c rest ih =>
    by_cases hb : boundaryAt (c :: rest)
    · left
      exact ⟨0, by simp [findVenueCut, hb], Nat.zero_le _, by simpa using hb,
        fun j hj => absurd hj (Nat.not_lt_zero j)⟩
    · by_cases hc : c = '\n'
      · right
        subst hc
        refine ⟨by simp [findVenueCut, hb], ?_⟩
        intro i hi
        have h0 : ('\n' :: rest).findIdx (fun c => c = '\n') = 0 := by
          simp [List.findIdx_cons]
        rw [h0] at hi
        interval_cases i
        simpa using hb
      · have hstep : findVenueCut (c :: rest) = (findVenueCut rest).map (fun pre => c :: pre) := by
          simp [findVenueCut, hb, hc]
        have hidx : (c :: rest).findIdx (fun c => c = '\n') =
            rest.findIdx (fun c => c = '\n') + 1 := by
          simp [List.findIdx_cons, hc]
        rcases ih with ⟨i, h1, h2, h3, h4⟩ | ⟨h1, h2⟩
        · left
          refine ⟨i + 1, ?_, ?_, ?_, ?_⟩
          · rw [hstep, h1, List.take_succ_cons]
            rfl
          · rw [hidx]; omega
          · simpa [List.drop_succ_cons] using h3
          · intro j hj
            cases j with
            | zero => simpa using hb
            | succ k =>
              rw [List.drop_succ_cons]
              exact h4 k (by omega)
        · right
          refine ⟨by rw [hstep, h1]; rfl, ?_⟩
          intro i hi
          cases i with
          | zero => simpa using hb
          | succ k =>
            rw [List.drop_succ_cons]
            rw [hidx] at hi
            exact h2 k (by omega)

/-- Claim C8, amended.  `extract_journal_name` first trims its input (and
trims the prefix it keeps), and the boundary search of the regex cannot move
past the first newline, because the lazy dot does not match `\n`.  Subject
to that: when some position at or before the first newline of the trimmed
string carries a boundary (space+digit, space+`(`+digit, or
comma+optional-whitespace+digits), the function returns the trimmed prefix
before the first such position; otherwise it returns the whole trimmed
string.  The claim's two concrete examples hold. -/
theorem C8_extract_amended :
    (∀ raw : String,
      (∃ i, i ≤ (pyStripList raw.data).findIdx (fun c => c = '\n') ∧
          boundaryAt ((pyStripList raw.data).drop i) = true ∧
          (∀ j < i, boundaryAt ((pyStripList raw.data).drop j) = false) ∧
          extract_journal_name raw = ⟨pyStripList ((pyStripList raw.data).take i)⟩) ∨
        ((∀ i ≤ (pyStripList raw.data).findIdx (fun c => c = '\n'),
            boundaryAt ((pyStripList raw.data).drop i) = false) ∧
          extract_journal_name raw = ⟨pyStripList raw.data⟩)) ∧
    extract_journal_name "Nature, 580(7803), 123-125, 2020" = "Nature" ∧
    extract_journal_name "Journal of Foo 12 34-56" = "Journal of Foo" := by
  refine ⟨?_, by decide, by decide⟩
  intro raw
  rcases findVenueCut_spec (pyStripList raw.data) with ⟨i, h1, h2, h3, h4⟩ | ⟨h1, h2⟩
  · left
    exact ⟨i, h2, h3, h4, by simp [extract_journal_name, h1]⟩
  · right
    exact ⟨h2, by simp [extract_journal_name, h1]⟩

/-- Witness for `C8_extract_amended` at a concrete input. -/
theorem C8_extract_amended_witness :
    (∃ i, i ≤ (pyStripList "Nature, 580(7803), 123-125, 2020".data).findIdx
          (fun c => c = '\n') ∧
        boundaryAt ((pyStripList "Nature, 580(7803), 123-125, 2020".data).drop i) = true ∧
        (∀ j < i,
          boundaryAt ((pyStripList "Nature, 580(7803), 123-125, 2020".data).drop j) =
            false) ∧
        extract_journal_name "Nature, 580(7803), 123-125, 2020" =
          ⟨pyStripList ((pyStripList "Nature, 580(7803), 123-125, 2020".data).take i)⟩) ∨
      ((∀ i ≤ (pyStripList "Nature, 580(7803), 123-125, 2020".data).findIdx
            (fun c => c = '\n'),
          boundaryAt ((pyStripList "Nature, 580(7803), 123-125, 2020".data).drop i) =
            false) ∧
        extract_journal_name "Nature, 580(7803), 123-125, 2020" =
          ⟨pyStripList "Nature, 580(7803), 123-125, 2020".data⟩) :=
  C8_extract_amended.1 "Nature, 580(7803), 123-125, 2020"

/-- Claim C4, amended.  The reverse walk of the author-position classifier
behaves as the claim describes — non-alphabetic tokens are skipped, tokens
starting lowercase are prepended to the surname, tokens starting uppercase
contribute their first letter to the initials — but under exactly that rule
the uppercase particles of `"Anna Van Der Berg"` become initials, the
reconstruction is `"AVD Berg"`, and
`classify("A Van Der Berg", "Anna Van Der Berg")` therefore returns FALSE
(it returns true against the lowercase-particled `"Anna van der Berg"`). -/
theorem C4_classifier_walk_amended :
    (∀ (ini sur p : String) (rest : List String), pyIsAlphaStr p = false →
        walkRev ini sur (p :: rest) = walkRev ini sur rest) ∧
    (∀ (ini sur p : String) (rest : List String),
        pyIsAlphaStr p = true → startsLower p = true →
        walkRev ini sur (p :: rest) = walkRev ini (p ++ " " ++ sur) rest) ∧
    (∀ (ini sur p : String) (rest : List String),
        pyIsAlphaStr p = true → startsLower p = false →
        walkRev ini sur (p :: rest) = walkRev (headLetter p ++ ini) sur rest) ∧
    rebuildInitialled "Anna Van Der Berg" = "AVD Berg" ∧
    rebuildInitialled "Anna van der Berg" = "A van der Berg" ∧
    rebuildInitialled "Anna J. Van Der Berg" = "AVD Berg" ∧
    compare_initialled_name_with_full_name "A Van Der Berg" "Anna Van Der Berg" =
      .ok false ∧
    compare_initialled_name_with_full_name "A Van Der Berg" "Anna van der Berg" =
      .ok true := by
  refine ⟨?_, ?_, ?_, by decide, by decide, by decide, by decide, by decide⟩
  · intro ini sur p rest h
    simp [walkRev, h]
  · intro ini sur p rest h1 h2
    simp [walkRev, h1, h2]
  · intro ini sur p rest h1 h2
    simp [walkRev, h1, h2]

/-- Counterexample to claim C4 as stated: the classifier run the claim
asserts to return true returns false. -/
theorem C4_classifier_counterexample :
    compare_initialled_name_with_full_name "A Van Der Berg" "Anna Van Der Berg" =
      .ok false := by
  decide

/-- Witness for `C4_classifier_walk_amended` at a concrete input: the
non-alphabetic token `"J."` is skipped by the walk. -/
theorem C4_classifier_walk_amended_witness :
    walkRev "" "Berg" ["J.", "Anna"] = walkRev "" "Berg" ["Anna"] :=
  C4_classifier_walk_amended.1 "" "Berg" "J." ["Anna"] (by decide)

/-- Claim C9, confirmed.  The classifier returns its fatal error exactly
when either name contains more than one hyphen; `"A-B-C Smith"` triggers it,
zero- or one-hyphen names are processed normally (a Boolean is returned);
and because the error propagates through the page scrape and the profile
aggregation uncaught (Python's `SystemExit` is not an `Exception`), a single
multi-hyphen author on a venue-matched row aborts the whole run. -/
theorem C9_multi_hyphen_fatal :
    (∀ initialled full : String,
      compare_initialled_name_with_full_name initialled full = .error () ↔
        2 ≤ hyphenCount initialled ∨ 2 ≤ hyphenCount full) ∧
    compare_initialled_name_with_full_name "A-B-C Smith" "John Smith" = .error () ∧
    compare_initialled_name_with_full_name "A-B Smith" "John Smith" = .ok false ∧
    compare_initialled_name_with_full_name "J Smith" "John Smith" = .ok true ∧
    (scrape_profile_all_publications
        [⟨some "John Smith", some "Uni X", [], none, none, none, none,
          [⟨"A-B-C Smith, J Smith", "Nature Methods"⟩]⟩]
        ["Nature Methods"] (normalisedTitlesMap ["Nature Methods"])).map (fun _ => ()) =
      .error () := by
  refine ⟨?_, by decide, by decide, by decide, by decide⟩
  intro i f
  unfold compare_initialled_name_with_full_name
  constructor
  · intro h
    by_cases h1 : 2 ≤ hyphenCount i
    · exact Or.inl h1
    · by_cases h2 : 2 ≤ hyphenCount f
      · exact Or.inr h2
      · rw [if_neg h1, if_neg h2] at h
        exact absurd h (by simp)
  · rintro (h1 | h2)
    · rw [if_pos h1]
    · by_cases h1 : 2 ≤ hyphenCount i
      · rw [if_pos h1]
      · rw [if_neg h1, if_pos h2]

set_option synthInstance.maxSize 512 in
/-- Claim C2 is right and the code is wrong (code bug).  `scrape_it` reads
the front matter only on page 0 — as its own comment says — but the
aggregation loop of `scrape_profile_all_publications` rebinds the
front-matter variables to every page's result, so after a second page the
profile's institution, research areas and citation/h-index values are all
`None` even though page 0 carried them.  (The older src/snap.py guarded
this assignment with `if page_idx == 0`.)  This theorem evaluates the code
at the failing input: page 0 extraction succeeds, yet the two-page
aggregate has lost every front-matter value. -/
theorem C2_front_matter_code_bug :
    ((scrape_it ⟨some "Anna Smith", some "Uni X", ["AI"], some 10, some 8, some 100,
          some 60, []⟩ [] [] 0).map
        (fun r => (r.institution, r.researchAreas, r.hAll, r.hFiveY, r.citAll, r.citFiveY)) =
      .ok (some "Uni X", some ["AI"], some 10, some 8, some 100, some 60)) ∧
    ((scrape_profile_all_publications
        [⟨some "Anna Smith", some "Uni X", ["AI"], some 10, some 8, some 100, some 60, []⟩,
         ⟨some "Anna Smith", some "Uni X", ["AI"], some 10, some 8, some 100, some 60, []⟩]
        [] []).map
        (fun r => (r.institution, r.researchAreas, r.hAll, r.hFiveY, r.citAll, r.citFiveY)) =
      .ok (none, none, none, none, none, none)) := by
  refine ⟨by decide, by decide⟩

/-- Claim C7, confirmed.  Venue matching is an exact-equality lookup of
`normalise_journal_name (extract_journal_name raw)` in the precomputed map
from normalised canonical name to canonical name: any successful match names
an allow-listed venue whose normalised form EQUALS the normalised candidate
(no substring or fuzzy matching, hence no false positives), and on the
allow-list `["Nature Methods"]` the candidate `"nature methods"` matches
while `"nature methods extra"` does not. -/
theorem C7_exact_venue_matching :
    (∀ (journal_list : List String) (raw j : String),
      matchedJournalFor (normalisedTitlesMap journal_list) raw = some j →
        j ∈ journal_list ∧
        normalise_journal_name (extract_journal_name raw) = normalise_journal_name j) ∧
    matchedJournalFor (normalisedTitlesMap ["Nature Methods"]) "nature methods" =
      some "Nature Methods" ∧
    matchedJournalFor (normalisedTitlesMap ["Nature Methods"]) "nature methods extra" =
      none := by
  refine ⟨?_, by decide, by decide⟩
  intro jl raw j h
  unfold matchedJournalFor dictGet at h
  rcases hfind : (normalisedTitlesMap jl).reverse.find?
      (fun kv => kv.1 == normalise_journal_name (extract_journal_name raw)) with _ | kv
  · rw [hfind] at h
    exact absurd h (by simp)
  · rw [hfind] at h
    have hv : kv.2 = j := by simpa using h
    have hmem : kv ∈ (normalisedTitlesMap jl).reverse := List.mem_of_find?_eq_some hfind
    have hpred := List.find?_some hfind
    rw [List.mem_reverse] at hmem
    unfold normalisedTitlesMap at hmem
    rcases List.mem_map.mp hmem with ⟨j', hj', hkv⟩
    have h1 : kv.1 = normalise_journal_name j' := by rw [← hkv]
    have h2 : kv.2 = j' := by rw [← hkv]
    have hkey : kv.1 = normalise_journal_name (extract_journal_name raw) := by
      simpa using hpred
    constructor
    · rw [← hv, h2]; exact hj'
    · rw [← hkey, h1, ← h2, hv]

/-- Witness for `C7_exact_venue_matching` at a concrete input: the matched
venue is allow-listed and its normalised form equals the normalised
candidate. -/
theorem C7_exact_venue_matching_witness :
    "Nature Methods" ∈ ["Nature Methods"] ∧
    normalise_journal_name (extract_journal_name "nature methods") =
      normalise_journal_name "Nature Methods" :=
  C7_exact_venue_matching.1 ["Nature Methods"] "nature methods" "Nature Methods" (by decide)

/-- The classifier succeeds (no fatal exit) whenever both names have at
most one hyphen, returning the core comparison verdict. -/
theorem compare_ok {i f : String} (h1 : hyphenCount i ≤ 1) (h2 : hyphenCount f ≤ 1) :
    compare_initialled_name_with_full_name i f = .ok (compareCore i f) := by
  unfold compare_initialled_name_with_full_name
  rw [if_neg (by omega), if_neg (by omega)]

/-- Increment the last-author counter receives from an entry: 1 when the
final author token matches the candidate, else 0. -/
def lastMatchInc (cand : String) (m : List String) : Nat :=
  match m.getLast? with
  | some z => if compareCore z cand then 1 else 0
  | none => 0

/-- First-author increment: the token at ordinal 1 matches. -/
def posFirst (cand : String) (l : List String) : Nat :=
  match l with
  | a :: _ => if compareCore a cand then 1 else 0
  | [] => 0

/-- Second-author increment: the token at ordinal 2 matches. -/
def posSecond (cand : String) (l : List String) : Nat :=
  match l with
  | _ :: b :: _ => if compareCore b cand then 1 else 0
  | _ => 0

/-- Last-author increment under the source's `elif` chain: only entries
with at least three authors can increment it, because ordinals 1 and 2 are
consumed by the earlier branches. -/
def posLast (cand : String) (l : List String) : Nat :=
  if 3 ≤ l.length then lastMatchInc cand l else 0

/-- Unfolding one step of the author loop when the compare cannot exit. -/
theorem authorLoop_cons (cand : String) (n : Nat) (a : String) (rest : List String)
    (counter : Nat) (acc : Nat × Nat × Nat)
    (h1 : hyphenCount a ≤ 1) (h2 : hyphenCount cand ≤ 1) :
    authorLoop cand n (a :: rest) counter acc =
      authorLoop cand n rest (counter + 1)
        (if compareCore a cand then
          (if counter + 1 = 1 then (acc.1 + 1, acc.2.1, acc.2.2)
           else if counter + 1 = 2 then (acc.1, acc.2.1 + 1, acc.2.2)
           else if counter + 1 = n then (acc.1, acc.2.1, acc.2.2 + 1)
           else acc)
         else acc) := by
  simp only [authorLoop, compare_ok h1 h2]
  rfl

/-- From ordinal 3 on, only the final ordinal can increment anything, and it
increments exactly the last-author counter. -/
theorem authorLoop_tail (cand : String) (n : Nat) (hcand : hyphenCount cand ≤ 1) :
    ∀ (m : List String) (counter : Nat) (acc : Nat × Nat × Nat),
      m ≠ [] → 2 ≤ counter → counter + m.length = n →
      (∀ a ∈ m, hyphenCount a ≤ 1) →
      authorLoop cand n m counter acc =
        .ok (acc.1, acc.2.1, acc.2.2 + lastMatchInc cand m) := by
  intro m
  induction m with
  | nil => intro counter acc hne; exact absurd rfl hne
  | cons z t ih =>
    intro counter acc _ h2 hn ha
    have hz : hyphenCount z ≤ 1 := ha z (List.mem_cons_self _ _)
    cases t with
    | nil =>
      have hcn : counter + 1 = n := by simpa using hn
      rw [authorLoop_cons cand n z [] counter acc hz hcand]
      obtain ⟨f, s, l⟩ := acc
      by_cases hcmp : compareCore z cand
      · rw [if_pos hcmp, if_neg (show ¬counter + 1 = 1 by omega),
          if_neg (show ¬counter + 1 = 2 by omega), if_pos hcn]
        simp [authorLoop, lastMatchInc, hcmp]
      · rw [if_neg hcmp]
        simp [authorLoop, lastMatchInc, hcmp]
    | cons w t' =>
      rw [authorLoop_cons cand n z (w :: t') counter acc hz hcand]
      have hne : counter + 1 ≠ n := by
        simp only [List.length_cons] at hn
        omega
      have hacc :
          (if compareCore z cand then
            (if counter + 1 = 1 then (acc.1 + 1, acc.2.1, acc.2.2)
             else if counter + 1 = 2 then (acc.1, acc.2.1 + 1, acc.2.2)
             else if counter + 1 = n then (acc.1, acc.2.1, acc.2.2 + 1)
             else acc)
           else acc) = acc := by
        by_cases hcmp : compareCore z cand
        · rw [if_pos hcmp, if_neg (show ¬counter + 1 = 1 by omega),
            if_neg (show ¬counter + 1 = 2 by omega), if_neg hne]
        · rw [if_neg hcmp]
      rw [hacc]
      rw [ih (counter + 1) acc (by simp) (by omega)
        (by simp only [List.length_cons] at hn ⊢; omega)
        (fun a hmem => ha a (List.mem_cons_of_mem _ hmem))]
      simp [lastMatchInc, List.getLast?_cons_cons]

/-- The author loop, characterised over the whole token list. -/
theorem authorLoop_run (cand : String) (l : List String)
    (hcand : hyphenCount cand ≤ 1) (hall : ∀ a ∈ l, hyphenCount a ≤ 1) :
    authorLoop cand l.length l 0 (0, 0, 0) =
      .ok (posFirst cand l, posSecond cand l, posLast cand l) := by
  match l with
  | [] => simp [authorLoop, posFirst, posSecond, posLast, lastMatchInc]
  | [a] =>
    have hA := hall a (by simp)
    rw [show [a].length = 1 from rfl]
    rw [authorLoop_cons cand 1 a [] 0 (0, 0, 0) hA hcand]
    by_cases hcmp : compareCore a cand <;>
      simp [hcmp, authorLoop, posFirst, posSecond, posLast]
  | [a, b] =>
    have hA := hall a (by simp)
    have hB := hall b (by simp)
    rw [show [a, b].length = 2 from rfl]
    rw [authorLoop_cons cand 2 a [b] 0 (0, 0, 0) hA hcand]
    by_cases hcmpa : compareCore a cand
    · rw [show (if compareCore a cand then
          (if 0 + 1 = 1 then ((0:Nat) + 1, (0:Nat), (0:Nat))
           else if 0 + 1 = 2 then (0, 0 + 1, 0)
           else if 0 + 1 = 2 then (0, 0, 0 + 1)
           else (0, 0, 0))
         else (0, 0, 0)) = ((1:Nat), (0:Nat), (0:Nat)) by simp [hcmpa]]
      rw [authorLoop_cons cand 2 b [] (0 + 1) (1, 0, 0) hB hcand]
      by_cases hcmpb : compareCore b cand <;>
        simp [hcmpa, hcmpb, authorLoop, posFirst, posSecond, posLast]
    · rw [show (if compareCore a cand then
          (if 0 + 1 = 1 then ((0:Nat) + 1, (0:Nat), (0:Nat))
           else if 0 + 1 = 2 then (0, 0 + 1, 0)
           else if 0 + 1 = 2 then (0, 0, 0 + 1)
           else (0, 0, 0))
         else (0, 0, 0)) = ((0:Nat), (0:Nat), (0:Nat)) by simp [hcmpa]]
      rw [authorLoop_cons cand 2 b [] (0 + 1) (0, 0, 0) hB hcand]
      by_cases hcmpb : compareCore b cand <;>
        simp [hcmpa, hcmpb, authorLoop, posFirst, posSecond, posLast]
  | a :: b :: z :: t =>
    have hA := hall a (by simp)
    have hB := hall b (by simp)
    have hZT : ∀ x ∈ z :: t, hyphenCount x ≤ 1 := fun x hx =>
      hall x (List.mem_cons_of_mem _ (List.mem_cons_of_mem _ hx))
    set n := (a :: b :: z :: t).length with hnd
    have hn : n = t.length + 3 := by simp [hnd]
    rw [authorLoop_cons cand n a (b :: z :: t) 0 (0, 0, 0) hA hcand]
    have e1 : (if compareCore a cand then
        (if 0 + 1 = 1 then ((0:Nat) + 1, (0:Nat), (0:Nat))
         else if 0 + 1 = 2 then (0, 0 + 1, 0)
         else if 0 + 1 = n then (0, 0, 0 + 1)
         else (0, 0, 0))
       else (0, 0, 0)) = (posFirst cand (a :: b :: z :: t), (0:Nat), (0:Nat)) := by
      by_cases hcmpa : compareCore a cand <;> simp [hcmpa, posFirst]
    rw [e1]
    rw [authorLoop_cons cand n b (z :: t) (0 + 1)
      (posFirst cand (a :: b :: z :: t), 0, 0) hB hcand]
    have e2 : (if compareCore b cand then
        (if 0 + 1 + 1 = 1 then (posFirst cand (a :: b :: z :: t) + 1, (0:Nat), (0:Nat))
         else if 0 + 1 + 1 = 2 then (posFirst cand (a :: b :: z :: t), 0 + 1, 0)
         else if 0 + 1 + 1 = n then (posFirst cand (a :: b :: z :: t), 0, 0 + 1)
         else (posFirst cand (a :: b :: z :: t), 0, 0))
       else (posFirst cand (a :: b :: z :: t), 0, 0)) =
        (posFirst cand (a :: b :: z :: t), posSecond cand (a :: b :: z :: t), (0:Nat)) := by
      by_cases hcmpb : compareCore b cand <;> simp [hcmpb, posSecond]
    rw [e2]
    rw [authorLoop_tail cand n hcand (z :: t) (0 + 1 + 1)
      (posFirst cand (a :: b :: z :: t), posSecond cand (a :: b :: z :: t), 0)
      (by simp) (by omega) (by simp only [List.length_cons, hn]; omega) hZT]
    have hp : posLast cand (a :: b :: z :: t) = lastMatchInc cand (z :: t) := by
      unfold posLast
      rw [if_pos (by simp only [List.length_cons]; omega)]
      simp [lastMatchInc, List.getLast?_cons_cons]
    rw [hp]
    simp

/-- Claim C3, amended.  For a venue-matched entry the author tokens are
classified in list order, but the position branches are an `elif` chain and
therefore mutually exclusive per token: a match at ordinal 1 increments the
first-author counter, OTHERWISE a match at ordinal 2 increments the
second-author counter, OTHERWISE a match at the final ordinal (necessarily
3 or later) increments the last-author counter.  In particular, for a
two-author entry whose match is at ordinal 2 only the second-author counter
increments — the last-author counter does not. -/
theorem C3_author_positions_amended :
    (∀ cand text : String,
      hyphenCount cand ≤ 1 →
      (∀ a ∈ authorTokens text, hyphenCount a ≤ 1) →
      entryPositionCounts cand text =
        .ok (posFirst cand (authorTokens text), posSecond cand (authorTokens text),
          posLast cand (authorTokens text))) ∧
    entryPositionCounts "Bob Jones" "A Smith, B Jones" = .ok (0, 1, 0) := by
  refine ⟨?_, by decide⟩
  intro cand text hcand hall
  unfold entryPositionCounts
  exact authorLoop_run cand (authorTokens text) hcand hall

/-- Counterexample to claim C3 as stated: for the two-author entry
`"A Smith, B Jones"` with candidate `"Bob Jones"` (a match at ordinal 2),
the claim requires the last-author counter to increment alongside the
second-author counter, but the `elif` chain leaves it at 0. -/
theorem C3_author_positions_counterexample :
    entryPositionCounts "Bob Jones" "A Smith, B Jones" = .ok (0, 1, 0) ∧
    (entryPositionCounts "Bob Jones" "A Smith, B Jones").map (fun t => t.2.2) ≠
      .ok 1 := by
  decide

/-- Witness for `C3_author_positions_amended` at a concrete input. -/
theorem C3_author_positions_amended_witness :
    entryPositionCounts "Bob Jones" "A Smith, B Jones" =
      .ok (posFirst "Bob Jones" (authorTokens "A Smith, B Jones"),
        posSecond "Bob Jones" (authorTokens "A Smith, B Jones"),
        posLast "Bob Jones" (authorTokens "A Smith, B Jones")) :=
  C3_author_positions_amended.1 "Bob Jones" "A Smith, B Jones" (by decide) (by decide)

/-- Step lemma: a 429 or 503 response ends pagination at once in the
snapp.py controller. -/
theorem snappGo_rate_limited (ps mr base : Nat) (st : Nat) (body : String)
    (rows : Option Nat) (pl a : Nat) (rest : List Resp) (hst : st = 429 ∨ st = 503) :
    snappGo ps mr base (Resp.http st body rows :: rest) (pl + 1) a = ⟨1, [], []⟩ := by
  simp only [snappGo]
  rw [if_pos (by rcases hst with h | h <;> simp [h])]

/-- Step lemma: a 200 body that looks like a block page ends pagination at
once in the snapp.py controller. -/
theorem snappGo_block_page (ps mr base : Nat) (body : String) (rows : Option Nat)
    (pl a : Nat) (rest : List Resp) (hb : looks_like_block_page body = true) :
    snappGo ps mr base (Resp.http 200 body rows :: rest) (pl + 1) a = ⟨1, [], []⟩ := by
  simp only [snappGo]
  rw [if_neg (by decide), if_neg (by simp), if_pos hb]

/-- Step lemma: a short page (fewer rows than the page size) is yielded and
pagination ends. -/
theorem snappGo_yield_last (ps mr base : Nat) (body : String) (n pl a : Nat)
    (rest : List Resp) (hblock : looks_like_block_page body = false)
    (hn : n + 1 < ps) :
    snappGo ps mr base (Resp.http 200 body (some (n + 1)) :: rest) (pl + 1) a =
      ⟨1, [], [body]⟩ := by
  simp only [snappGo]
  rw [if_neg (by decide), if_neg (by simp), if_neg (by simp [hblock]), if_pos hn]

/-- Step lemma: a full page is yielded and pagination moves to the next
page with a fresh block-attempt counter. -/
theorem snappGo_yield_continue (ps mr base : Nat) (body : String) (n pl a : Nat)
    (rest : List Resp) (hblock : looks_like_block_page body = false)
    (hn : ¬n + 1 < ps) :
    snappGo ps mr base (Resp.http 200 body (some (n + 1)) :: rest) (pl + 1) a =
      ⟨(snappGo ps mr base rest pl 0).reqs + 1, (snappGo ps mr base rest pl 0).backoffs,
        body :: (snappGo ps mr base rest pl 0).pages⟩ := by
  simp only [snappGo]
  rw [if_neg (by decide), if_neg (by simp), if_neg (by simp [hblock]), if_neg hn]

/-- Step lemma: a transport error within the retry budget sleeps the
geometric backoff and retries the same page with the counter bumped. -/
theorem snappGo_transport_retry (ps mr base : Nat) (pl a : Nat) (rest : List Resp)
    (h : a + 1 ≤ mr) :
    snappGo ps mr base (Resp.tErr :: rest) (pl + 1) a =
      ⟨(snappGo ps mr base rest (pl + 1) (a + 1)).reqs + 1,
        base * 2 ^ a :: (snappGo ps mr base rest (pl + 1) (a + 1)).backoffs,
        (snappGo ps mr base rest (pl + 1) (a + 1)).pages⟩ := by
  simp only [snappGo]
  rw [if_neg (by omega)]
  simp

/-- Step lemma: a transport error past the retry budget gives the page up
(and with it this profile's pagination), raising nothing. -/
theorem snappGo_transport_giveup (ps mr base : Nat) (pl a : Nat) (rest : List Resp)
    (h : mr < a + 1) :
    snappGo ps mr base (Resp.tErr :: rest) (pl + 1) a = ⟨1, [], []⟩ := by
  simp only [snappGo]
  rw [if_pos h]

/-- Consuming `k` consecutive transport errors within the retry budget costs
`k` requests and the geometric backoffs `base * 2^a, ..., base * 2^(a+k-1)`,
after which the controller continues on the same page with the counter at
`a + k`. -/
theorem snappGo_transport_run (ps mr base pl : Nat) :
    ∀ (k a : Nat) (rest : List Resp), a + k ≤ mr →
      snappGo ps mr base (List.replicate k Resp.tErr ++ rest) (pl + 1) a =
        ⟨(snappGo ps mr base rest (pl + 1) (a + k)).reqs + k,
          (List.range k).map (fun i => base * 2 ^ (a + i)) ++
            (snappGo ps mr base rest (pl + 1) (a + k)).backoffs,
          (snappGo ps mr base rest (pl + 1) (a + k)).pages⟩ := by
  intro k
  induction k with
  | zero => intro a rest _; simp
  | succ k ih =>
    intro a rest hak
    rw [List.replicate_succ, List.cons_append,
      snappGo_transport_retry ps mr base pl a _ (by omega),
      ih (a + 1) rest (by omega)]
    have hs : a + 1 + k = a + (k + 1) := by omega
    rw [hs]
    have hmap : (List.range (k + 1)).map (fun i => base * 2 ^ (a + i)) =
        base * 2 ^ a :: (List.range k).map (fun i => base * 2 ^ (a + 1 + i)) := by
      rw [List.range_succ_eq_map, List.map_cons, List.map_map]
      congr 1
      refine List.map_congr_left ?_
      intro i _
      have he : a + Nat.succ i = a + 1 + i := by omega
      simp [Function.comp, he]
    rw [hmap]
    simp [Nat.add_assoc]

/-- Claim C1, amended.  In the src/snapp.py controller only a TRANSPORT
error takes the block-attempt/backoff path: `max_block_retries + 1`
consecutive transport errors make `max_block_retries + 1` requests, sleep
the geometric backoffs `base * 2^0, ..., base * 2^(retries-1)` between
them, and then end pagination for the profile without raising (the
controller is a total function); `k ≤ max_block_retries` transport errors
followed by a clean page retry the SAME page, which is then yielded.  An
HTTP 429/503 response, by contrast, ends pagination immediately — no
counter increment, no backoff, no retry — and a 200 body carrying a block
marker is treated identically to a 429 (both end pagination immediately).
(The older src/snap.py controller is the variant that retries 429/503 and
block-marker pages.) -/
theorem C1_backoff_retry_amended :
    (∀ (ps mp mr base : Nat) (rest : List Resp),
      iter_scholar_pages_requests (List.replicate (mr + 1) Resp.tErr ++ rest)
        ps (mp + 1) mr base =
        ⟨mr + 1, (List.range mr).map (fun i => base * 2 ^ i), []⟩) ∧
    (∀ (ps mp mr base k n : Nat) (body : String) (rest : List Resp),
      k ≤ mr → n + 1 < ps → looks_like_block_page body = false →
      iter_scholar_pages_requests
        (List.replicate k Resp.tErr ++ (Resp.http 200 body (some (n + 1)) :: rest))
        ps (mp + 1) mr base =
        ⟨k + 1, (List.range k).map (fun i => base * 2 ^ i), [body]⟩) ∧
    (∀ (ps mp mr base st : Nat) (body : String) (rows : Option Nat) (rest : List Resp),
      st = 429 ∨ st = 503 →
      iter_scholar_pages_requests (Resp.http st body rows :: rest) ps (mp + 1) mr base =
        ⟨1, [], []⟩) ∧
    (∀ (ps mp mr base : Nat) (body : String) (rows : Option Nat) (rest : List Resp),
      looks_like_block_page body = true →
      iter_scholar_pages_requests (Resp.http 200 body rows :: rest) ps (mp + 1) mr base =
        ⟨1, [], []⟩) := by
  refine ⟨?_, ?_, ?_, ?_⟩
  · intro ps mp mr base rest
    unfold iter_scholar_pages_requests
    rw [List.replicate_succ', List.append_assoc, List.singleton_append,
      snappGo_transport_run ps mr base mp mr 0 _ (by omega),
      snappGo_transport_giveup ps mr base mp (0 + mr) rest (by omega)]
    simp [Nat.add_comm]
  · intro ps mp mr base k n body rest hk hn hb
    unfold iter_scholar_pages_requests
    rw [snappGo_transport_run ps mr base mp k 0 _ (by omega),
      snappGo_yield_last ps mr base body n mp (0 + k) rest hb hn]
    simp [Nat.add_comm]
  · intro ps mp mr base st body rows rest hst
    exact snappGo_rate_limited ps mr base st body rows mp 0 rest hst
  · intro ps mp mr base body rows rest hb
    exact snappGo_block_page ps mr base body rows mp 0 rest hb

/-- Counterexample to claim C1 as stated: a 429 response with retry budget
remaining (5 retries configured, none used) is required by the claim to
increment the counter, back off and retry the page — the very next fetch
would succeed — yet the src/snapp.py controller makes exactly one request,
sleeps no backoff and yields nothing.  The src/snap.py variant, which does
behave as the claim describes, retries once (10s backoff) and yields the
page. -/
theorem C1_backoff_retry_counterexample :
    iter_scholar_pages_requests [Resp.http 429 "" (some 5), Resp.http 200 "" (some 5)]
      100 50 5 10 = ⟨1, [], []⟩ ∧
    iter_scholar_pages_requests_snap [Resp.http 429 "" (some 5), Resp.http 200 "" (some 5)]
      100 50 5 10 = ⟨2, [10], [""]⟩ :=
  ⟨by decide, by decide⟩

/-- Witness for `C1_backoff_retry_amended` at concrete inputs: one
transport error within budget retries (with a 10s backoff) and the next
fetch's short page is yielded; a 429 ends pagination at once. -/
theorem C1_backoff_retry_amended_witness :
    iter_scholar_pages_requests
      (List.replicate 1 Resp.tErr ++ (Resp.http 200 "x" (some (0 + 1)) :: []))
      2 (0 + 1) 1 10 = ⟨1 + 1, (List.range 1).map (fun i => 10 * 2 ^ i), ["x"]⟩ ∧
    iter_scholar_pages_requests (Resp.http 429 "" none :: []) 100 (0 + 1) 5 10 =
      ⟨1, [], []⟩ :=
  ⟨C1_backoff_retry_amended.2.1 2 0 1 10 1 0 "x" [] (by decide) (by decide) (by decide),
   C1_backoff_retry_amended.2.2.1 100 0 5 10 429 "" none [] (Or.inl rfl)⟩

/-- Running `k` full pages followed by one short page, all within the
`max_pages` window. -/
theorem snappGo_full_run (ps mr base r : Nat) (h1 : 1 ≤ r) (h2 : r < ps) :
    ∀ (k pl a : Nat), k ≤ pl →
      snappGo ps mr base
        (List.replicate k (Resp.http 200 "F" (some ps)) ++ [Resp.http 200 "L" (some r)])
        (pl + 1) a =
        ⟨k + 1, [], List.replicate k "F" ++ ["L"]⟩ := by
  intro k
  induction k with
  | zero =>
    intro pl a _
    obtain ⟨r', rfl⟩ : ∃ r', r = r' + 1 := ⟨r - 1, by omega⟩
    simpa using snappGo_yield_last ps mr base "L" r' pl a [] (by decide) h2
  | succ k ih =>
    intro pl a hk
    cases pl with
    | zero => omega
    | succ pl' =>
      obtain ⟨p', rfl⟩ : ∃ p', ps = p' + 1 := ⟨ps - 1, by omega⟩
      rw [List.replicate_succ, List.cons_append,
        snappGo_yield_continue (p' + 1) mr base "F" p' (pl' + 1) a _ (by decide) (by omega),
        ih pl' 0 (by omega)]
      simp [List.replicate_succ]

/-- Claim C6, amended.  When every fetched page has exactly `pagesize` rows
except a final page with strictly fewer (at least one), AND the number of
pages needed stays within the (spec-unmentioned) `max_pages` window, the
controller makes exactly `ceil(total_rows / pagesize) = k + 1` requests and
yields exactly those `k + 1` pages: the short page is yielded and then
pagination ends with no further request. -/
theorem C6_last_page_amended :
    ∀ (ps k r mp mr base : Nat),
      1 ≤ r → r < ps → k + 1 ≤ mp →
      (iter_scholar_pages_requests
        (List.replicate k (Resp.http 200 "F" (some ps)) ++ [Resp.http 200 "L" (some r)])
        ps mp mr base =
        ⟨k + 1, [], List.replicate k "F" ++ ["L"]⟩) ∧
      (k * ps + r + (ps - 1)) / ps = k + 1 := by
  intro ps k r mp mr base h1 h2 h3
  constructor
  · obtain ⟨pl, rfl⟩ : ∃ pl, mp = pl + 1 := ⟨mp - 1, by omega⟩
    exact snappGo_full_run ps mr base r h1 h2 k pl 0 (by omega)
  · have e : k * ps + r + (ps - 1) = (r - 1) + (k + 1) * ps := by
      rw [Nat.succ_mul]
      omega
    rw [e, Nat.add_mul_div_right _ _ (show 0 < ps by omega),
      Nat.div_eq_of_lt (by omega)]
    omega

/-- Counterexample to claim C6 as stated: with the default `max_pages = 50`
window, 50 full pages of 2 rows followed by a final 1-row page
(`total_rows = 101`, `ceil(101/2) = 51`) yield only 50 pages — the claim's
`ceil(total_rows/pagesize)` count is false once it exceeds the ceiling the
spec never mentions. -/
theorem C6_last_page_counterexample :
    (iter_scholar_pages_requests
      (List.replicate 50 (Resp.http 200 "F" (some 2)) ++ [Resp.http 200 "L" (some 1)])
      2 50 0 10).pages.length = 50 ∧
    (50 * 2 + 1 + (2 - 1)) / 2 = 51 ∧ (50 : Nat) ≠ 51 := by
  refine ⟨by decide, by norm_num, by decide⟩

/-- Witness for `C6_last_page_amended` at a concrete input. -/
theorem C6_last_page_amended_witness :
    (iter_scholar_pages_requests
      (List.replicate 1 (Resp.http 200 "F" (some 2)) ++ [Resp.http 200 "L" (some 1)])
      2 2 0 10 = ⟨1 + 1, [], List.replicate 1 "F" ++ ["L"]⟩) ∧
    (1 * 2 + 1 + (2 - 1)) / 2 = 1 + 1 :=
  C6_last_page_amended 2 1 1 2 0 10 (by decide) (by decide) (by decide)

/-- The snapp.py controller never yields more pages than its `pagesLeft`
budget. -/
theorem snappGo_pages_le (ps mr base : Nat) :
    ∀ (resps : List Resp) (pl a : Nat),
      (snappGo ps mr base resps pl a).pages.length ≤ pl := by
  intro resps
  induction resps with
  | nil =>
    intro pl a
    cases pl <;> simp [snappGo]
  | cons r rest ih =>
    intro pl a
    cases pl with
    | zero => simp [snappGo]
    | succ pl =>
      cases r with
      | tErr =>
        simp only [snappGo]
        split
        · simp
        · simpa using ih (pl + 1) (a + 1)
      | http st body rows =>
        simp only [snappGo]
        split
        · simp
        · split
          · simp
          · split
            · simp
            · split
              · simp
              · simp
              · split
                · simp
                · have h := ih pl 0
                  simp only [List.length_cons]
                  omega

/-- The snap.py controller never yields more pages than its `pagesLeft`
budget. -/
theorem snapGo_pages_le (ps mr base : Nat) :
    ∀ (resps : List Resp) (pl a : Nat),
      (snapGo ps mr base resps pl a).pages.length ≤ pl := by
  intro resps
  induction resps with
  | nil =>
    intro pl a
    cases pl <;> simp [snapGo]
  | cons r rest ih =>
    intro pl a
    cases pl with
    | zero => simp [snapGo]
    | succ pl =>
      cases r with
      | tErr =>
        simp only [snapGo]
        split
        · simp
        · simpa using ih (pl + 1) (a + 1)
      | http st body rows =>
        simp only [snapGo]
        split
        · split
          · simp
          · simpa using ih (pl + 1) (a + 1)
        · split
          · simp
          · split
            · split
              · simp
              · simpa using ih (pl + 1) (a + 1)
            · split
              · simp
              · simp
              · split
                · simp
                · have h := ih pl 0
                  simp only [List.length_cons]
                  omega

/-- A run of nothing but full pages stops silently after exactly the
`max_pages` window. -/
theorem snappGo_all_full (n mr base : Nat) :
    ∀ (mp m a : Nat),
      (snappGo (n + 1) mr base
        (List.replicate (mp + m) (Resp.http 200 "F" (some (n + 1)))) mp a).pages.length =
        mp := by
  intro mp
  induction mp with
  | zero => intro m a; simp [snappGo]
  | succ mp ih =>
    intro m a
    rw [show mp + 1 + m = (mp + m) + 1 from by omega, List.replicate_succ,
      snappGo_yield_continue (n + 1) mr base "F" n mp a _ (by decide) (by omega)]
    simpa using ih m 0

/-- Claim C10, confirmed (implicit).  Whatever the fetch behaviour and the
configuration, both controllers yield at most `max_pages` pages per
profile; and when every fetched page is full (`pagesize` rows, with
`pagesize = n + 1 ≥ 1`), pagination silently stops after exactly the
`max_pages`-th page — a ceiling the spec never mentions. -/
theorem C10_max_pages_ceiling :
    (∀ (resps : List Resp) (ps mp mr base : Nat),
      (iter_scholar_pages_requests resps ps mp mr base).pages.length ≤ mp) ∧
    (∀ (resps : List Resp) (ps mp mr base : Nat),
      (iter_scholar_pages_requests_snap resps ps mp mr base).pages.length ≤ mp) ∧
    (∀ (n m mp mr base : Nat),
      (iter_scholar_pages_requests
        (List.replicate (mp + m) (Resp.http 200 "F" (some (n + 1))))
        (n + 1) mp mr base).pages.length = mp) := by
  refine ⟨?_, ?_, ?_⟩
  · intro resps ps mp mr base
    exact snappGo_pages_le ps mr base resps mp 0
  · intro resps ps mp mr base
    exact snapGo_pages_le ps mr base resps mp 0
  · intro n m mp mr base
    exact snappGo_all_full n mr base mp m 0

/-- Counterexample to claim C8 as stated: on `"Foo\nBar 1"` the first
space+digit boundary sits after the newline, where the regex cannot reach,
so the code returns the whole string while the claim requires the prefix
`"Foo\nBar"`. -/
theorem C8_extract_counterexample :
    extract_journal_name "Foo\nBar 1" = "Foo\nBar 1" ∧
    extractVenueClaimed "Foo\nBar 1" = "Foo\nBar" ∧
    extract_journal_name "Foo\nBar 1" ≠ extractVenueClaimed "Foo\nBar 1" := by
  decide
